import Mathlib

/-!
Verification of the partial-path engine (`src/partial.rs`) of the stack-graphs
name resolver.  Stacks are modelled as Lean lists: the deque arena of the
source stores logical sequences whose public contract (spec §4.A) is that all
operations are observationally value-like, so each `Deque` handle is embedded
as the list of its elements.  Handles (`Handle<Symbol>`, `Handle<Node>`,
`Handle<File>`) are embedded as natural numbers, and scope stack variables
(positive 32-bit integers in the source) as natural numbers.  Fallible
operations that mutate `&mut self` in Rust are embedded as functions
returning the updated state together with an optional error, so that the
state at the moment an error is returned is visible.
-/

/-- Kinds of stack graph nodes (`Node` in `graph.rs`, external to the file
under verification; only the variants that `partial.rs` inspects are
distinguished, with `internalScope` standing for every other variant). -/
inductive Node where
  | root
  | jumpTo
  | exportedScope
  | internalScope
  | pushSymbol (symbol : Nat)
  | pushScopedSymbol (symbol : Nat) (scope : Nat)
  | popSymbol (symbol : Nat)
  | popScopedSymbol (symbol : Nat)
  | dropScopes
deriving DecidableEq, Repr

/-- Returns whether the node is the jump-to node (`Node::is_jump_to`). -/
def Node.is_jump_to : Node → Bool
  | .jumpTo => true
  | _ => false

/-- An edge of the stack graph (`Edge` in `graph.rs`). -/
structure Edge where
  source : Nat
  sink : Nat
  precedence : Int
deriving DecidableEq, Repr

/-- Errors from `paths::PathResolutionError` that `partial.rs` can produce. -/
inductive PathResolutionError where
  | incorrectSourceNode
  | incorrectPoppedSymbol
  | unexpectedAttachedScopeList
  | missingAttachedScopeList
  | emptyScopeStack
deriving DecidableEq, Repr

/-- The read-only stack graph interface consumed by the engine (spec §6):
node variants by handle, the root node, outgoing edges, the nodes of a file,
file membership, and the interned value a symbol handle resolves to (used by
`cmp`, which orders symbols by their interned contents). -/
structure StackGraph where
  node : Nat → Node
  rootNode : Nat
  outgoingEdges : Nat → List Edge
  nodesForFile : Nat → List Nat
  isInFile : Nat → Nat → Bool
  symbolValue : Nat → Nat

/-- `ScopeStackVariable::initial`: the variable of a fresh partial path. -/
def ScopeStackVariable.initial : Nat := 1

/-- `ScopeStackVariable::fresher_than`: one more than the maximum in use. -/
def ScopeStackVariable.fresher_than (max_used : Nat) : Nat := max_used + 1

/-- Comparison of natural numbers as an `Ordering`, standing for the `Ord`
comparisons on handles and interned symbols in the source. -/
def cmpNat (a b : Nat) : Ordering :=
  if a < b then .lt else if a = b then .eq else .gt

/-- Modelled from the spec: `utils::equals_option` (the file `utils.rs` is
not part of the sources provided) — two options are equal when both are
absent, or both present with equal contents. -/
def equalsOption (a b : Option α) (eq : α → α → Bool) : Bool :=
  match a, b with
  | none, none => true
  | some x, some y => eq x y
  | _, _ => false

/-- Modelled from the spec: `utils::cmp_option` (the file `utils.rs` is not
part of the sources provided) — `None < Some`, and two present values are
compared with the given comparator. -/
def cmpOption (a b : Option α) (c : α → α → Ordering) : Ordering :=
  match a, b with
  | none, none => .eq
  | none, some _ => .lt
  | some _, none => .gt
  | some x, some y => c x y

/-- Modelled from the spec: `Deque::equals_with` (the arena lives in
`arena.rs`, not part of the sources provided) — element-wise equality of two
logical sequences of the same length. -/
def listEqualsWith (eq : α → α → Bool) : List α → List α → Bool
  | [], [] => true
  | [], _ :: _ => false
  | _ :: _, [] => false
  | x :: xs, y :: ys => eq x y && listEqualsWith eq xs ys

/-- Modelled from the spec: `Deque::cmp_with` (the arena lives in `arena.rs`,
not part of the sources provided) — lexicographic comparison of two logical
sequences; the shorter sequence is less. -/
def listCmpWith (c : α → α → Ordering) : List α → List α → Ordering
  | [], [] => .eq
  | [], _ :: _ => .lt
  | _ :: _, [] => .gt
  | x :: xs, y :: ys => (c x y).then (listCmpWith c xs ys)

/-- `PartialScopeStack`: a possibly empty list of exported scope node handles
together with an optional trailing scope stack variable.  The source names
the second field `variable`, which is reserved in Lean, so it is named `var`
here. -/
structure PartialScopeStack where
  scopes : List Nat
  var : Option Nat
deriving DecidableEq, Repr

/-- `PartialScopeStack::empty`. -/
def PartialScopeStack.empty : PartialScopeStack := ⟨[], none⟩

/-- `PartialScopeStack::from_variable`. -/
def PartialScopeStack.from_variable (v : Nat) : PartialScopeStack := ⟨[], some v⟩

/-- `PartialScopeStack::can_only_match_empty`. -/
def PartialScopeStack.can_only_match_empty (s : PartialScopeStack) : Bool :=
  s.scopes.isEmpty && s.var.isNone

/-- `PartialScopeStack::contains_scopes`. -/
def PartialScopeStack.contains_scopes (s : PartialScopeStack) : Bool :=
  !s.scopes.isEmpty

/-- The element-wise loop of `PartialScopeStack::matches`: both sequences
are drained from the front and must agree element by element and in
length. -/
def scopeListMatches : List Nat → List Nat → Bool
  | [], other => other.isEmpty
  | _ :: _, [] => false
  | x :: xs, y :: ys => x == y && scopeListMatches xs ys

/-- `PartialScopeStack::matches`: the scope sequences must agree exactly and
the trailing variables must be equal. -/
def PartialScopeStack.matches (a b : PartialScopeStack) : Bool :=
  scopeListMatches a.scopes b.scopes && a.var == b.var

/-- `PartialScopeStack::equals`. -/
def PartialScopeStack.equals (a b : PartialScopeStack) : Bool :=
  listEqualsWith (fun x y => x == y) a.scopes b.scopes
    && equalsOption a.var b.var (fun x y => x == y)

/-- `PartialScopeStack::cmp`. -/
def PartialScopeStack.cmp (a b : PartialScopeStack) : Ordering :=
  (listCmpWith cmpNat a.scopes b.scopes).then (cmpOption a.var b.var cmpNat)

/-- `PartialScopedSymbol`: a symbol handle with an optional attached partial
scope stack; `none` and `some empty` are distinct. -/
structure PartialScopedSymbol where
  symbol : Nat
  scopes : Option PartialScopeStack
deriving DecidableEq, Repr

/-- `PartialScopedSymbol::matches`: equal symbols, agreeing presence of
attached scopes, and matching attached scope stacks when both present. -/
def PartialScopedSymbol.matches (a b : PartialScopedSymbol) : Bool :=
  if a.symbol != b.symbol then false
  else if a.scopes.isNone != b.scopes.isNone then false
  else
    match a.scopes, b.scopes with
    | some x, some y => PartialScopeStack.matches x y
    | _, _ => true

/-- `PartialScopedSymbol::equals`. -/
def PartialScopedSymbol.equals (a b : PartialScopedSymbol) : Bool :=
  a.symbol == b.symbol && equalsOption a.scopes b.scopes PartialScopeStack.equals

/-- `PartialScopedSymbol::cmp`: by the interned symbol the handle resolves
to, then by the optional attached scope stack. -/
def PartialScopedSymbol.cmp (g : StackGraph) (a b : PartialScopedSymbol) : Ordering :=
  (cmpNat (g.symbolValue a.symbol) (g.symbolValue b.symbol)).then
    (cmpOption a.scopes b.scopes PartialScopeStack.cmp)

/-- `PartialSymbolStack`: an ordered sequence of partial scoped symbols, the
head of the list being the front of the stack. -/
abbrev PartialSymbolStack := List PartialScopedSymbol

/-- `PartialSymbolStack::matches`: same length, element-wise `matches`. -/
def PartialSymbolStack.matches : PartialSymbolStack → PartialSymbolStack → Bool
  | [], other => other.isEmpty
  | _ :: _, [] => false
  | x :: xs, y :: ys => PartialScopedSymbol.matches x y && PartialSymbolStack.matches xs ys

/-- `PartialSymbolStack::equals`. -/
def PartialSymbolStack.equals : PartialSymbolStack → PartialSymbolStack → Bool
  | [], other => other.isEmpty
  | _ :: _, [] => false
  | x :: xs, y :: ys => PartialScopedSymbol.equals x y && PartialSymbolStack.equals xs ys

/-- `PartialSymbolStack::cmp`: element-wise from the front; a stack that runs
out first is less. -/
def PartialSymbolStack.cmp (g : StackGraph) : PartialSymbolStack → PartialSymbolStack → Ordering
  | [], other => if other.isEmpty then .eq else .lt
  | _ :: _, [] => .gt
  | x :: xs, y :: ys =>
    match PartialScopedSymbol.cmp g x y with
    | .eq => PartialSymbolStack.cmp g xs ys
    | r => r

/-- `PartialPath`: start and end node handles, the four stack pre- and
postconditions, and the number of edges (plus resolved jumps). -/
structure PartialPath where
  start_node : Nat
  end_node : Nat
  symbol_stack_precondition : PartialSymbolStack
  symbol_stack_postcondition : PartialSymbolStack
  scope_stack_precondition : PartialScopeStack
  scope_stack_postcondition : PartialScopeStack
  edge_count : Nat
deriving DecidableEq, Repr

/-- The scope stack variables that occur in a partial symbol stack: for each
scoped symbol, the trailing variable of its attached scope stack, if any. -/
def symbolStackVariables : PartialSymbolStack → List Nat
  | [] => []
  | x :: xs =>
    (match x.scopes with
     | some sc => sc.var.toList
     | none => []) ++ symbolStackVariables xs

/-- The scope stack variables occurring anywhere in the preconditions of a
partial path: the attached-scope variables of the symbol stack precondition
followed by the trailing variable of the scope stack precondition. -/
def preconditionVariables (p : PartialPath) : List Nat :=
  symbolStackVariables p.symbol_stack_precondition
    ++ p.scope_stack_precondition.var.toList

/-- The scope stack variables occurring anywhere in the postconditions of a
partial path. -/
def postconditionVariables (p : PartialPath) : List Nat :=
  symbolStackVariables p.symbol_stack_postcondition
    ++ p.scope_stack_postcondition.var.toList

/-- The maximum of a list of naturals, or zero for the empty list
(`Iterator::max().unwrap_or(0)` in the source). -/
def maxOrZero (l : List Nat) : Nat := l.foldr max 0

/-- `PartialPath::fresh_scope_stack_variable`: one more than the largest
variable in any precondition (postconditions need not be scanned). -/
def PartialPath.fresh_scope_stack_variable (p : PartialPath) : Nat :=
  ScopeStackVariable.fresher_than (maxOrZero (preconditionVariables p))

/-- `PartialPath::from_node`: the trivial partial path at a node, with
the push specialisations for `PushSymbol` and `PushScopedSymbol` nodes. -/
def PartialPath.from_node (g : StackGraph) (node : Nat) : PartialPath :=
  match g.node node with
  | .pushScopedSymbol s c =>
    { start_node := node
      end_node := node
      symbol_stack_precondition := []
      symbol_stack_postcondition := [⟨s, some ⟨[c], none⟩⟩]
      scope_stack_precondition := PartialScopeStack.empty
      scope_stack_postcondition := ⟨[c], none⟩
      edge_count := 0 }
  | .pushSymbol s =>
    { start_node := node
      end_node := node
      symbol_stack_precondition := []
      symbol_stack_postcondition := [⟨s, none⟩]
      scope_stack_precondition := PartialScopeStack.empty
      scope_stack_postcondition := PartialScopeStack.empty
      edge_count := 0 }
  | _ =>
    { start_node := node
      end_node := node
      symbol_stack_precondition := []
      symbol_stack_postcondition := []
      scope_stack_precondition := PartialScopeStack.from_variable ScopeStackVariable.initial
      scope_stack_postcondition := PartialScopeStack.from_variable ScopeStackVariable.initial
      edge_count := 0 }

/-- `PartialPath::equals`: componentwise on everything except `edge_count`. -/
def PartialPath.equals (a b : PartialPath) : Bool :=
  a.start_node == b.start_node
    && a.end_node == b.end_node
    && PartialSymbolStack.equals a.symbol_stack_precondition b.symbol_stack_precondition
    && PartialSymbolStack.equals a.symbol_stack_postcondition b.symbol_stack_postcondition
    && PartialScopeStack.equals a.scope_stack_precondition b.scope_stack_precondition
    && PartialScopeStack.equals a.scope_stack_postcondition b.scope_stack_postcondition

/-- `PartialPath::cmp`: lexicographically on everything except `edge_count`. -/
def PartialPath.cmp (g : StackGraph) (a b : PartialPath) : Ordering :=
  (((((cmpNat a.start_node b.start_node).then
    (cmpNat a.end_node b.end_node)).then
    (PartialSymbolStack.cmp g a.symbol_stack_precondition b.symbol_stack_precondition)).then
    (PartialSymbolStack.cmp g a.symbol_stack_postcondition b.symbol_stack_postcondition)).then
    (PartialScopeStack.cmp a.scope_stack_precondition b.scope_stack_precondition)).then
    (PartialScopeStack.cmp a.scope_stack_postcondition b.scope_stack_postcondition)

/-- `PartialPath::is_productive`: the path moves between nodes or changes a
stack. -/
def PartialPath.is_productive (p : PartialPath) : Bool :=
  if p.start_node ≠ p.end_node then true
  else if !PartialSymbolStack.matches p.symbol_stack_precondition p.symbol_stack_postcondition then
    true
  else if !PartialScopeStack.matches p.scope_stack_precondition p.scope_stack_postcondition then
    true
  else false

/-- The success epilogue of `PartialPath::append`: set the end node to the
edge's sink and count the edge. -/
def appendFinish (sink : Nat) (p : PartialPath) : PartialPath × Option PathResolutionError :=
  ({ p with end_node := sink, edge_count := p.edge_count + 1 }, none)

/-- `PartialPath::append`: attempt to extend the partial path with one edge.
The returned path is the state of `self` at the point the Rust function
returns, so partial mutations made before an error are visible. -/
def PartialPath.append (g : StackGraph) (p : PartialPath) (e : Edge) :
    PartialPath × Option PathResolutionError :=
  if e.source ≠ p.end_node then
    (p, some .incorrectSourceNode)
  else
    match g.node e.sink with
    | .pushSymbol s =>
      appendFinish e.sink
        { p with symbol_stack_postcondition := ⟨s, none⟩ :: p.symbol_stack_postcondition }
    | .pushScopedSymbol s c =>
      appendFinish e.sink
        { p with symbol_stack_postcondition :=
            ⟨s, some ⟨c :: p.scope_stack_postcondition.scopes, p.scope_stack_postcondition.var⟩⟩
              :: p.symbol_stack_postcondition }
    | .popSymbol s =>
      match p.symbol_stack_postcondition with
      | top :: rest =>
        if top.symbol ≠ s then
          ({ p with symbol_stack_postcondition := rest }, some .incorrectPoppedSymbol)
        else if top.scopes.isSome then
          ({ p with symbol_stack_postcondition := rest }, some .unexpectedAttachedScopeList)
        else
          appendFinish e.sink { p with symbol_stack_postcondition := rest }
      | [] =>
        appendFinish e.sink
          { p with symbol_stack_precondition := p.symbol_stack_precondition ++ [⟨s, none⟩] }
    | .popScopedSymbol s =>
      match p.symbol_stack_postcondition with
      | top :: rest =>
        if top.symbol ≠ s then
          ({ p with symbol_stack_postcondition := rest }, some .incorrectPoppedSymbol)
        else
          match top.scopes with
          | some sc =>
            appendFinish e.sink
              { p with symbol_stack_postcondition := rest, scope_stack_postcondition := sc }
          | none =>
            ({ p with symbol_stack_postcondition := rest }, some .missingAttachedScopeList)
      | [] =>
        appendFinish e.sink
          { p with
            symbol_stack_precondition := p.symbol_stack_precondition
              ++ [⟨s, some (PartialScopeStack.from_variable p.fresh_scope_stack_variable)⟩],
            scope_stack_postcondition :=
              PartialScopeStack.from_variable p.fresh_scope_stack_variable }
    | .dropScopes =>
      appendFinish e.sink { p with scope_stack_postcondition := PartialScopeStack.empty }
    | _ =>
      appendFinish e.sink p

/-- `PartialPath::resolve`: resolve a jump-to node at the end of the path.
The empty-scopes branch of the final match is unreachable because it is
guarded by `contains_scopes`; the source unwraps there. -/
def PartialPath.resolve (g : StackGraph) (p : PartialPath) :
    PartialPath × Option PathResolutionError :=
  if !(g.node p.end_node).is_jump_to then (p, none)
  else if p.scope_stack_postcondition.can_only_match_empty then
    (p, some .emptyScopeStack)
  else if !p.scope_stack_postcondition.contains_scopes then (p, none)
  else
    match p.scope_stack_postcondition.scopes with
    | [] => (p, none)
    | top :: rest =>
      ({ p with
          end_node := top,
          scope_stack_postcondition := ⟨rest, p.scope_stack_postcondition.var⟩,
          edge_count := p.edge_count + 1 }, none)

/-- `PartialPath::extend_from_file`: the candidate extensions of a partial
path along the end node's outgoing edges whose sinks lie in the file, keeping
only those for which `append` and then `resolve` succeed. -/
def PartialPath.extend_from_file (g : StackGraph) (p : PartialPath) (file : Nat) :
    List PartialPath :=
  (g.outgoingEdges p.end_node).filterMap fun e =>
    if !g.isInFile e.sink file then none
    else
      match PartialPath.append g p e with
      | (q, none) =>
        match PartialPath.resolve g q with
        | (r, none) => some r
        | (_, some _) => none
      | (_, some _) => none

/-- Modelled from the spec: the cycle detector (`cycles.rs` is not part of
the sources provided).  Its contract (spec §4.G, §6) is that
`should_process_path` suppresses a path exactly when a previously processed
path is equal to it under the path comparator. -/
def shouldProcessPath (g : StackGraph) (seen : List PartialPath) (p : PartialPath) : Bool :=
  !(seen.any fun probe =>
    match PartialPath.cmp g probe p with
    | .eq => true
    | _ => false)

/-- The work loop of `PartialPaths::find_all_partial_paths_in_file`, with an
explicit fuel parameter: termination of the source loop relies entirely on
the external cycle detector (spec §4.G), so the embedding bounds the number
of iterations and returns the list of paths passed to the visitor, in visit
order. -/
def findAllLoop (g : StackGraph) (file : Nat) :
    Nat → List PartialPath → List PartialPath → List PartialPath → List PartialPath
  | 0, _, _, visited => visited
  | Nat.succ fuel, queue, seen, visited =>
    match queue with
    | [] => visited
    | p :: rest =>
      if !shouldProcessPath g seen p then
        findAllLoop g file fuel rest seen visited
      else
        findAllLoop g file fuel (rest ++ PartialPath.extend_from_file g p file)
          (p :: seen) (visited ++ [p])

/-- `PartialPaths::find_all_partial_paths_in_file`: seed the FIFO queue with
the trivial path at the root node and at every push or exported-scope node of
the file, then run the detector-guarded work loop; the result is the list of
paths handed to the visitor. -/
def find_all_partial_paths_in_file (g : StackGraph) (file : Nat) (fuel : Nat) :
    List PartialPath :=
  let seeds :=
    PartialPath.from_node g g.rootNode ::
      ((g.nodesForFile file).filter fun n =>
        match g.node n with
        | .pushScopedSymbol _ _ => true
        | .pushSymbol _ => true
        | .exportedScope => true
        | _ => false).map (PartialPath.from_node g)
  findAllLoop g file fuel seeds [] []

/-- A small concrete stack graph exercising one node of each interesting
kind, used to instantiate the theorems below at concrete inputs. -/
def gA : StackGraph where
  node := fun n =>
    match n with
    | 0 => .exportedScope
    | 1 => .popScopedSymbol 0
    | 2 => .jumpTo
    | 3 => .popSymbol 0
    | 4 => .pushSymbol 0
    | 5 => .pushScopedSymbol 0 9
    | 6 => .root
    | 7 => .dropScopes
    | _ => .internalScope
  rootNode := 6
  outgoingEdges := fun _ => []
  nodesForFile := fun _ => []
  isInFile := fun _ _ => false
  symbolValue := fun s => s

/-- A concrete stack graph whose file 0 holds an exported scope node 1 with
an edge to the scoped-push node 2; node 0 is the root.  Enumerating file 0
reaches the extension of the trivial path at node 1 along that edge. -/
def gEnum : StackGraph where
  node := fun n =>
    match n with
    | 0 => .root
    | 1 => .exportedScope
    | 2 => .pushScopedSymbol 0 1
    | _ => .internalScope
  rootNode := 0
  outgoingEdges := fun n => match n with | 1 => [⟨1, 2, 0⟩] | _ => []
  nodesForFile := fun f => match f with | 0 => [1, 2] | _ => []
  isInFile := fun n f => f == 0 && (n == 1 || n == 2)
  symbolValue := fun s => s

/-- The pooled variable invariant of a partial path: every scope stack
variable occurring in either postcondition also occurs somewhere in the
preconditions. -/
def variablesBound (p : PartialPath) : Prop :=
  ∀ v, v ∈ postconditionVariables p → v ∈ preconditionVariables p

lemma cmpNat_self (n : Nat) : cmpNat n n = .eq := by
  simp [cmpNat]

lemma ordering_eq_then (o : Ordering) : Ordering.eq.then o = o := rfl

lemma scopeListMatches_self (l : List Nat) : scopeListMatches l l = true := by
  induction l with
  | nil => rfl
  | cons x xs ih => simp [scopeListMatches, ih]

lemma listEqualsWith_beq_self (l : List Nat) :
    listEqualsWith (fun x y => x == y) l l = true := by
  induction l with
  | nil => rfl
  | cons x xs ih => simp [listEqualsWith, ih]

lemma listCmpWith_cmpNat_self (l : List Nat) : listCmpWith cmpNat l l = .eq := by
  induction l with
  | nil => rfl
  | cons x xs ih => simp [listCmpWith, cmpNat_self, ih, ordering_eq_then]

lemma scopeStack_matches_self (a : PartialScopeStack) : PartialScopeStack.matches a a = true := by
  simp [PartialScopeStack.matches, scopeListMatches_self]

lemma scopeStack_equals_self (a : PartialScopeStack) : PartialScopeStack.equals a a = true := by
  cases h : a.var <;>
    simp [PartialScopeStack.equals, listEqualsWith_beq_self, equalsOption, h]

lemma scopeStack_cmp_self (a : PartialScopeStack) : PartialScopeStack.cmp a a = .eq := by
  cases h : a.var <;>
    simp [PartialScopeStack.cmp, listCmpWith_cmpNat_self, cmpOption, h, ordering_eq_then,
      cmpNat_self]

lemma scopedSymbol_matches_self (a : PartialScopedSymbol) :
    PartialScopedSymbol.matches a a = true := by
  cases h : a.scopes <;>
    simp [PartialScopedSymbol.matches, h, scopeStack_matches_self]

lemma scopedSymbol_equals_self (a : PartialScopedSymbol) :
    PartialScopedSymbol.equals a a = true := by
  cases h : a.scopes <;>
    simp [PartialScopedSymbol.equals, equalsOption, h, scopeStack_equals_self]

lemma scopedSymbol_cmp_self (g : StackGraph) (a : PartialScopedSymbol) :
    PartialScopedSymbol.cmp g a a = .eq := by
  cases h : a.scopes <;>
    simp [PartialScopedSymbol.cmp, cmpNat_self, cmpOption, h, ordering_eq_then,
      scopeStack_cmp_self]

lemma symStack_matches_self (s : PartialSymbolStack) : PartialSymbolStack.matches s s = true := by
  induction s with
  | nil => rfl
  | cons x xs ih => simp [PartialSymbolStack.matches, scopedSymbol_matches_self, ih]

lemma symStack_equals_self (s : PartialSymbolStack) : PartialSymbolStack.equals s s = true := by
  induction s with
  | nil => rfl
  | cons x xs ih => simp [PartialSymbolStack.equals, scopedSymbol_equals_self, ih]

lemma symStack_cmp_self (g : StackGraph) (s : PartialSymbolStack) :
    PartialSymbolStack.cmp g s s = .eq := by
  induction s with
  | nil => rfl
  | cons x xs ih => simp [PartialSymbolStack.cmp, scopedSymbol_cmp_self, ih]

lemma listEqualsWith_beq_eq {a b : List Nat}
    (h : listEqualsWith (fun x y => x == y) a b = true) : a = b := by
  induction a generalizing b with
  | nil => cases b with
    | nil => rfl
    | cons y ys => simp [listEqualsWith] at h
  | cons x xs ih =>
    cases b with
    | nil => simp [listEqualsWith] at h
    | cons y ys =>
      simp [listEqualsWith] at h
      exact h.1 ▸ congrArg _ (ih h.2)

lemma scopeStack_equals_eq {a b : PartialScopeStack}
    (h : PartialScopeStack.equals a b = true) : a = b := by
  cases a with
  | mk ascopes avar =>
    cases b with
    | mk bscopes bvar =>
      simp [PartialScopeStack.equals] at h
      obtain ⟨h1, h2⟩ := h
      have hs : ascopes = bscopes := listEqualsWith_beq_eq h1
      cases avar <;> cases bvar <;> simp [equalsOption] at h2 <;> simp [hs, h2]

lemma scopedSymbol_equals_eq {a b : PartialScopedSymbol}
    (h : PartialScopedSymbol.equals a b = true) : a = b := by
  cases a with
  | mk asym ascopes =>
    cases b with
    | mk bsym bscopes =>
      simp [PartialScopedSymbol.equals] at h
      obtain ⟨h1, h2⟩ := h
      cases ascopes <;> cases bscopes <;> simp [equalsOption] at h2 <;>
        simp [h1]
      exact scopeStack_equals_eq h2

lemma symStack_equals_eq {a b : PartialSymbolStack}
    (h : PartialSymbolStack.equals a b = true) : a = b := by
  induction a generalizing b with
  | nil => cases b with
    | nil => rfl
    | cons y ys => simp [PartialSymbolStack.equals] at h
  | cons x xs ih =>
    cases b with
    | nil => simp [PartialSymbolStack.equals] at h
    | cons y ys =>
      simp [PartialSymbolStack.equals] at h
      exact (scopedSymbol_equals_eq h.1) ▸ congrArg _ (ih h.2)

lemma le_maxOrZero {l : List Nat} {v : Nat} (h : v ∈ l) : v ≤ maxOrZero l := by
  induction l with
  | nil => cases h
  | cons x xs ih =>
    rcases List.mem_cons.mp h with h' | h'
    · exact h' ▸ Nat.le_max_left _ _
    · exact Nat.le_trans (ih h') (Nat.le_max_right _ _)

lemma symbolStackVariables_append (a b : PartialSymbolStack) :
    symbolStackVariables (a ++ b) = symbolStackVariables a ++ symbolStackVariables b := by
  induction a with
  | nil => rfl
  | cons x xs ih => simp [symbolStackVariables, ih]

lemma from_node_variablesBound (g : StackGraph) (n : Nat) :
    variablesBound (PartialPath.from_node g n) := by
  unfold PartialPath.from_node
  split
  · intro v hv
    simp [postconditionVariables, symbolStackVariables] at hv
  · intro v hv
    simp [postconditionVariables, symbolStackVariables, PartialScopeStack.empty] at hv
  · intro v hv
    simpa [postconditionVariables, preconditionVariables, symbolStackVariables,
      PartialScopeStack.from_variable] using hv

lemma append_fst_variablesBound (g : StackGraph) (p : PartialPath) (e : Edge)
    (hp : variablesBound p) : variablesBound (PartialPath.append g p e).1 := by
  unfold PartialPath.append
  split
  · exact hp
  · split
    -- pushSymbol
    · intro v hv
      apply hp v
      simpa [appendFinish, postconditionVariables, symbolStackVariables] using hv
    -- pushScopedSymbol
    · intro v hv
      have := hp v
      simp [appendFinish, postconditionVariables, preconditionVariables,
        symbolStackVariables] at hv this ⊢
      tauto
    -- popSymbol
    · next s heq =>
      split
      · next top rest hpost =>
        split
        · intro v hv
          apply hp v
          simp [postconditionVariables, symbolStackVariables, hpost] at hv ⊢
          tauto
        · split
          · intro v hv
            apply hp v
            simp [postconditionVariables, symbolStackVariables, hpost] at hv ⊢
            tauto
          · intro v hv
            apply hp v
            simp [appendFinish, postconditionVariables, symbolStackVariables, hpost] at hv ⊢
            tauto
      · next hpost =>
        intro v hv
        have := hp v
        simp [appendFinish, postconditionVariables, preconditionVariables,
          symbolStackVariables, symbolStackVariables_append, hpost] at hv this ⊢
        tauto
    -- popScopedSymbol
    · next s heq =>
      split
      · next top rest hpost =>
        split
        · intro v hv
          apply hp v
          simp [postconditionVariables, symbolStackVariables, hpost] at hv ⊢
          tauto
        · split
          · next sc hsc =>
            intro v hv
            apply hp v
            simp [appendFinish, postconditionVariables, symbolStackVariables, hpost,
              hsc] at hv ⊢
            tauto
          · next hsc =>
            intro v hv
            apply hp v
            simp [postconditionVariables, symbolStackVariables, hpost] at hv ⊢
            tauto
      · next hpost =>
        intro v hv
        simp [appendFinish, postconditionVariables, preconditionVariables,
          symbolStackVariables, symbolStackVariables_append, hpost,
          PartialScopeStack.from_variable] at hv ⊢
        tauto
    -- dropScopes
    · intro v hv
      apply hp v
      simp [appendFinish, postconditionVariables, symbolStackVariables,
        PartialScopeStack.empty] at hv ⊢
      tauto
    -- all other node kinds
    · intro v hv
      exact hp v (by simpa [appendFinish, postconditionVariables] using hv)

lemma resolve_fst_variablesBound (g : StackGraph) (p : PartialPath)
    (hp : variablesBound p) : variablesBound (PartialPath.resolve g p).1 := by
  unfold PartialPath.resolve
  split
  · exact hp
  split
  · exact hp
  split
  · exact hp
  split
  · exact hp
  · next top rest hpost =>
    intro v hv
    apply hp v
    simp [postconditionVariables, hpost] at hv ⊢
    tauto

lemma extend_from_file_variablesBound (g : StackGraph) (p : PartialPath) (file : Nat)
    (hp : variablesBound p) :
    ∀ q ∈ PartialPath.extend_from_file g p file, variablesBound q := by
  intro q hq
  simp only [PartialPath.extend_from_file, List.mem_filterMap] at hq
  obtain ⟨e, _, he⟩ := hq
  by_cases hf : g.isInFile e.sink file
  · rw [if_neg (by simp [hf])] at he
    rcases hap : PartialPath.append g p e with ⟨q1, err1⟩
    rw [hap] at he
    cases err1 with
    | some err => simp at he
    | none =>
      simp only at he
      rcases hres : PartialPath.resolve g q1 with ⟨q2, err2⟩
      rw [hres] at he
      cases err2 with
      | some err => simp at he
      | none =>
        simp only [Option.some.injEq] at he
        subst he
        have h1 : variablesBound q1 := by
          have := append_fst_variablesBound g p e hp
          rwa [hap] at this
        have h2 : variablesBound (PartialPath.resolve g q1).1 :=
          resolve_fst_variablesBound g q1 h1
        rwa [hres] at h2
  · simp [hf] at he

lemma findAllLoop_variablesBound (g : StackGraph) (file : Nat) :
    ∀ (fuel : Nat) (queue seen visited : List PartialPath),
      (∀ p ∈ queue, variablesBound p) → (∀ p ∈ visited, variablesBound p) →
      ∀ p ∈ findAllLoop g file fuel queue seen visited, variablesBound p := by
  intro fuel
  induction fuel with
  | zero =>
    intro queue seen visited _ hv p hp
    exact hv p hp
  | succ n ih =>
    intro queue seen visited hq hv p hp
    cases queue with
    | nil =>
      exact hv p (by simpa [findAllLoop] using hp)
    | cons q rest =>
      simp only [findAllLoop] at hp
      split at hp
      · exact ih rest seen visited (fun r hr => hq r (List.mem_cons_of_mem _ hr)) hv p hp
      · refine ih (rest ++ PartialPath.extend_from_file g q file) (q :: seen)
          (visited ++ [q]) ?_ ?_ p hp
        · intro r hr
          rcases List.mem_append.mp hr with hr' | hr'
          · exact hq r (List.mem_cons_of_mem _ hr')
          · exact extend_from_file_variablesBound g q file
              (hq q (List.mem_cons_self q rest)) r hr'
        · intro r hr
          rcases List.mem_append.mp hr with hr' | hr'
          · exact hv r hr'
          · rw [List.mem_singleton.mp hr']
            exact hq q (List.mem_cons_self q rest)

lemma Node.is_jump_to_iff (n : Node) : n.is_jump_to = true ↔ n = .jumpTo := by
  cases n <;> simp [Node.is_jump_to]

/-- C1 (counterexample): the trivial partial path at the `PushSymbol` node 4
of `gA` is productive, refuting the claim that `is_productive(from_node(n))`
is false for every node kind including push nodes. -/
theorem from_node_push_is_productive :
    (PartialPath.from_node gA 4).is_productive = true := by decide

/-- C1 (amended): the trivial partial path `from_node(n)` is not productive
when `n` is not a `PushSymbol` or `PushScopedSymbol` node; at push nodes the
trivial path is productive, because its symbol-stack postcondition is
non-empty while its symbol-stack precondition is empty. -/
theorem from_node_productive_iff_push (g : StackGraph) (n : Nat) :
    (PartialPath.from_node g n).is_productive =
      (match g.node n with
       | .pushSymbol _ => true
       | .pushScopedSymbol _ _ => true
       | _ => false) := by
  cases h : g.node n <;>
    simp [PartialPath.from_node, h, PartialPath.is_productive,
      PartialSymbolStack.matches, PartialScopeStack.matches, scopeListMatches,
      PartialScopeStack.empty, PartialScopeStack.from_variable]

/-- C10: `matches`, `equals` and `cmp` are reflexive: every partial symbol
stack and every partial scope stack matches and equals itself, and compares
`Equal` with itself. -/
theorem matches_equals_cmp_reflexive (g : StackGraph) (s : PartialSymbolStack)
    (t : PartialScopeStack) :
    PartialSymbolStack.matches s s = true ∧ PartialSymbolStack.equals s s = true ∧
      PartialSymbolStack.cmp g s s = .eq ∧ PartialScopeStack.matches t t = true ∧
      PartialScopeStack.equals t t = true ∧ PartialScopeStack.cmp t t = .eq :=
  ⟨symStack_matches_self s, symStack_equals_self s, symStack_cmp_self g s,
   scopeStack_matches_self t, scopeStack_equals_self t, scopeStack_cmp_self t⟩

/-- C6: `fresh_scope_stack_variable` returns a variable strictly greater than
every variable occurring anywhere in the preconditions of the partial path:
the variables embedded in attached scope lists of the symbol-stack
precondition and the trailing variable of the scope-stack precondition. -/
theorem fresh_variable_exceeds_precondition_variables (p : PartialPath) (v : Nat)
    (h : v ∈ preconditionVariables p) : v < p.fresh_scope_stack_variable :=
  Nat.lt_succ_of_le (le_maxOrZero h)

/-- C6 witness: instantiated on a path with variable 3 attached in the
symbol-stack precondition and trailing variable 5 in the scope-stack
precondition. -/
theorem fresh_variable_exceeds_precondition_variables_witness :
    5 ∈ preconditionVariables
        ⟨0, 0, [⟨0, some ⟨[], some 3⟩⟩], [], ⟨[], some 5⟩, ⟨[], none⟩, 0⟩ ∧
      5 < (⟨0, 0, [⟨0, some ⟨[], some 3⟩⟩], [], ⟨[], some 5⟩, ⟨[], none⟩, 0⟩ :
          PartialPath).fresh_scope_stack_variable :=
  ⟨by decide, fresh_variable_exceeds_precondition_variables _ 5 (by decide)⟩

/-- C5: when the end node is a jump-to node and the scope-stack postcondition
contains at least one scope, `resolve` succeeds, removes the front scope from
the scope-stack postcondition, sets the end node to that scope, and
increments `edge_count` by exactly one. -/
theorem resolve_jump_pops_front_scope (g : StackGraph) (p : PartialPath)
    (top : Nat) (rest : List Nat)
    (h1 : g.node p.end_node = .jumpTo)
    (h2 : p.scope_stack_postcondition.scopes = top :: rest) :
    PartialPath.resolve g p =
      ({ p with
          end_node := top,
          scope_stack_postcondition := ⟨rest, p.scope_stack_postcondition.var⟩,
          edge_count := p.edge_count + 1 }, none) := by
  unfold PartialPath.resolve
  rw [h1]
  simp [Node.is_jump_to, PartialScopeStack.can_only_match_empty,
    PartialScopeStack.contains_scopes, h2]

/-- C5 witness: a jump-to path with scope-stack postcondition `[7, $1]`
resolves to end node 7, postcondition `[$1]` and edge count 4. -/
theorem resolve_jump_pops_front_scope_witness :
    PartialPath.resolve gA ⟨0, 2, [], [], ⟨[], some 1⟩, ⟨[7], some 1⟩, 3⟩ =
      (⟨0, 7, [], [], ⟨[], some 1⟩, ⟨[], some 1⟩, 4⟩, none) :=
  resolve_jump_pops_front_scope gA ⟨0, 2, [], [], ⟨[], some 1⟩, ⟨[7], some 1⟩, 3⟩
    7 [] rfl rfl

/-- C7: appending an edge whose sink is `PushScopedSymbol{s, c}` succeeds,
leaves the scope-stack postcondition unchanged, and pushes onto the front of
the symbol-stack postcondition the symbol `s` with an attached scope stack
equal to `c` prepended to the old scope-stack postcondition. -/
theorem append_push_scoped_preserves_scope_postcondition (g : StackGraph)
    (p : PartialPath) (e : Edge) (s c : Nat)
    (h1 : e.source = p.end_node) (h2 : g.node e.sink = .pushScopedSymbol s c) :
    (PartialPath.append g p e).2 = none ∧
      (PartialPath.append g p e).1.scope_stack_postcondition =
        p.scope_stack_postcondition ∧
      (PartialPath.append g p e).1.symbol_stack_postcondition =
        ⟨s, some ⟨c :: p.scope_stack_postcondition.scopes,
            p.scope_stack_postcondition.var⟩⟩ :: p.symbol_stack_postcondition := by
  unfold PartialPath.append
  rw [h2]
  simp [h1, appendFinish]

/-- C7 witness: instantiated at the trivial path of the exported scope node 0
of `gA` and an edge to the scoped-push node 5. -/
theorem append_push_scoped_preserves_scope_postcondition_witness :
    (PartialPath.append gA (PartialPath.from_node gA 0) ⟨0, 5, 0⟩).2 = none ∧
      (PartialPath.append gA (PartialPath.from_node gA 0)
          ⟨0, 5, 0⟩).1.scope_stack_postcondition =
        (PartialPath.from_node gA 0).scope_stack_postcondition ∧
      (PartialPath.append gA (PartialPath.from_node gA 0)
          ⟨0, 5, 0⟩).1.symbol_stack_postcondition =
        ⟨0, some ⟨9 :: (PartialPath.from_node gA 0).scope_stack_postcondition.scopes,
            (PartialPath.from_node gA 0).scope_stack_postcondition.var⟩⟩
          :: (PartialPath.from_node gA 0).symbol_stack_postcondition :=
  append_push_scoped_preserves_scope_postcondition gA _ _ 0 9 rfl rfl

/-- C3: on a partial path with empty symbol-stack postcondition, appending an
edge to a `PopSymbol{s}` sink succeeds and pushes `{s, None}` onto the back
of the symbol-stack precondition, and appending an edge to a
`PopScopedSymbol{s}` sink succeeds, pushes `{s, Some([v])}` onto the back of
the symbol-stack precondition and sets the scope-stack postcondition to
`[v]`, where `v` is the freshly minted scope stack variable. -/
theorem append_pop_on_empty_postcondition (g : StackGraph) (p : PartialPath)
    (e : Edge) (s : Nat)
    (h0 : p.symbol_stack_postcondition = []) (h1 : e.source = p.end_node) :
    (g.node e.sink = .popSymbol s →
      PartialPath.append g p e =
        ({ p with
            symbol_stack_precondition := p.symbol_stack_precondition ++ [⟨s, none⟩],
            end_node := e.sink,
            edge_count := p.edge_count + 1 }, none)) ∧
    (g.node e.sink = .popScopedSymbol s →
      PartialPath.append g p e =
        ({ p with
            symbol_stack_precondition := p.symbol_stack_precondition
              ++ [⟨s, some (PartialScopeStack.from_variable
                    p.fresh_scope_stack_variable)⟩],
            scope_stack_postcondition :=
              PartialScopeStack.from_variable p.fresh_scope_stack_variable,
            end_node := e.sink,
            edge_count := p.edge_count + 1 }, none)) := by
  constructor
  · intro h
    unfold PartialPath.append
    rw [h]
    simp [h1, h0, appendFinish]
  · intro h
    unfold PartialPath.append
    rw [h]
    simp [h1, h0, appendFinish]

/-- C3 witness: the concrete scenario of the claim — starting from the
trivial path at the exported scope node 0 of `gA` (initial variable 1) and
appending the edge to the scoped-pop node 1 yields symbol-stack precondition
`[{0, Some([$2])}]` and scope-stack postcondition `[$2]`. -/
theorem append_pop_on_empty_postcondition_witness :
    PartialPath.append gA (PartialPath.from_node gA 0) ⟨0, 1, 0⟩ =
      (⟨0, 1, [⟨0, some ⟨[], some 2⟩⟩], [], ⟨[], some 1⟩, ⟨[], some 2⟩, 1⟩, none) :=
  (append_pop_on_empty_postcondition gA (PartialPath.from_node gA 0) ⟨0, 1, 0⟩ 0
    rfl rfl).2 rfl

/-- C4: `resolve` returns success without change when the end node is not a
jump-to node, and also when it is a jump-to node and the scope-stack
postcondition is a bare variable (no scopes, variable present); it fails with
`EmptyScopeStack` exactly when the end node is a jump-to node and the
scope-stack postcondition can only match the empty stack (no scopes and no
variable). -/
theorem resolve_success_and_failure_cases (g : StackGraph) (p : PartialPath) :
    (g.node p.end_node ≠ .jumpTo → PartialPath.resolve g p = (p, none)) ∧
    (g.node p.end_node = .jumpTo → p.scope_stack_postcondition.scopes = [] →
      p.scope_stack_postcondition.var ≠ none → PartialPath.resolve g p = (p, none)) ∧
    ((PartialPath.resolve g p).2 = some .emptyScopeStack ↔
      g.node p.end_node = .jumpTo ∧ p.scope_stack_postcondition.scopes = [] ∧
        p.scope_stack_postcondition.var = none) := by
  by_cases hj : g.node p.end_node = .jumpTo
  · rcases hsc : p.scope_stack_postcondition.scopes with _ | ⟨top, rest⟩
    · rcases hv : p.scope_stack_postcondition.var with _ | v
      · have hres : PartialPath.resolve g p = (p, some .emptyScopeStack) := by
          unfold PartialPath.resolve
          rw [hj]
          simp [Node.is_jump_to, PartialScopeStack.can_only_match_empty, hsc, hv]
        refine ⟨fun h => absurd hj h, fun _ _ hvn => absurd rfl hvn, ?_⟩
        rw [hres]
        simp [hj]
      · have hres : PartialPath.resolve g p = (p, none) := by
          unfold PartialPath.resolve
          rw [hj]
          simp [Node.is_jump_to, PartialScopeStack.can_only_match_empty,
            PartialScopeStack.contains_scopes, hsc, hv]
        refine ⟨fun h => absurd hj h, fun _ _ _ => hres, ?_⟩
        rw [hres]
        simp [hv]
    · have hres : PartialPath.resolve g p =
          ({ p with
              end_node := top,
              scope_stack_postcondition := ⟨rest, p.scope_stack_postcondition.var⟩,
              edge_count := p.edge_count + 1 }, none) := by
        unfold PartialPath.resolve
        rw [hj]
        simp [Node.is_jump_to, PartialScopeStack.can_only_match_empty,
          PartialScopeStack.contains_scopes, hsc]
      refine ⟨fun h => absurd hj h, fun _ hsc' _ => (List.cons_ne_nil top rest hsc').elim,
        ?_⟩
      rw [hres]
      simp
  · have hfalse : (g.node p.end_node).is_jump_to = false := by
      cases hn : g.node p.end_node
      case jumpTo => exact absurd hn hj
      all_goals rfl
    have hres : PartialPath.resolve g p = (p, none) := by
      unfold PartialPath.resolve
      simp [hfalse]
    exact ⟨fun _ => hres, fun h => absurd h hj, by rw [hres]; simp [hj]⟩

/-- C4 witness: on `gA`, a jump-to path with a bare-variable scope-stack
postcondition resolves unchanged, and one with a can-only-match-empty
postcondition fails with `EmptyScopeStack`. -/
theorem resolve_success_and_failure_cases_witness :
    PartialPath.resolve gA ⟨0, 2, [], [], ⟨[], some 1⟩, ⟨[], some 1⟩, 0⟩ =
      (⟨0, 2, [], [], ⟨[], some 1⟩, ⟨[], some 1⟩, 0⟩, none) ∧
    (PartialPath.resolve gA ⟨0, 2, [], [], ⟨[], some 1⟩, ⟨[], none⟩, 0⟩).2 =
      some .emptyScopeStack :=
  ⟨(resolve_success_and_failure_cases gA
      ⟨0, 2, [], [], ⟨[], some 1⟩, ⟨[], some 1⟩, 0⟩).2.1 rfl rfl (by simp),
   (resolve_success_and_failure_cases gA
      ⟨0, 2, [], [], ⟨[], some 1⟩, ⟨[], none⟩, 0⟩).2.2.mpr ⟨rfl, rfl, rfl⟩⟩

/-- C8: `append` is not atomic on pop errors: whenever it returns
`IncorrectPoppedSymbol`, `UnexpectedAttachedScopeList` or
`MissingAttachedScopeList`, the symbol-stack postcondition was non-empty and
its front element has already been removed and is not restored; only an
`IncorrectSourceNode` error leaves the partial path completely unchanged. -/
theorem append_pop_errors_not_atomic (g : StackGraph) (p : PartialPath) (e : Edge) :
    ((PartialPath.append g p e).2 = some .incorrectSourceNode →
      (PartialPath.append g p e).1 = p) ∧
    (∀ err, (PartialPath.append g p e).2 = some err →
      (err = .incorrectPoppedSymbol ∨ err = .unexpectedAttachedScopeList ∨
        err = .missingAttachedScopeList) →
      ∃ top rest, p.symbol_stack_postcondition = top :: rest ∧
        (PartialPath.append g p e).1 = { p with symbol_stack_postcondition := rest } ∧
        (PartialPath.append g p e).1.symbol_stack_postcondition ≠
          p.symbol_stack_postcondition) := by
  unfold PartialPath.append
  split
  · refine ⟨fun _ => rfl, fun err herr hor => ?_⟩
    simp only [Option.some.injEq] at herr
    rcases hor with h | h | h <;> rw [← herr] at h <;> cases h
  · split
    -- pushSymbol
    · exact ⟨fun h => by simp [appendFinish] at h,
        fun err h hor => by simp [appendFinish] at h⟩
    -- pushScopedSymbol
    · exact ⟨fun h => by simp [appendFinish] at h,
        fun err h hor => by simp [appendFinish] at h⟩
    -- popSymbol
    · split
      · next top rest hpost =>
        split
        · refine ⟨fun h => by simp at h, fun err herr hor => ?_⟩
          refine ⟨top, rest, hpost, rfl, ?_⟩
          simp only [hpost]
          exact fun hh => List.cons_ne_self top rest hh.symm
        · split
          · refine ⟨fun h => by simp at h, fun err herr hor => ?_⟩
            refine ⟨top, rest, hpost, rfl, ?_⟩
            simp only [hpost]
            exact fun hh => List.cons_ne_self top rest hh.symm
          · exact ⟨fun h => by simp [appendFinish] at h,
              fun err h hor => by simp [appendFinish] at h⟩
      · exact ⟨fun h => by simp [appendFinish] at h,
          fun err h hor => by simp [appendFinish] at h⟩
    -- popScopedSymbol
    · split
      · next top rest hpost =>
        split
        · refine ⟨fun h => by simp at h, fun err herr hor => ?_⟩
          refine ⟨top, rest, hpost, rfl, ?_⟩
          simp only [hpost]
          exact fun hh => List.cons_ne_self top rest hh.symm
        · split
          · exact ⟨fun h => by simp [appendFinish] at h,
              fun err h hor => by simp [appendFinish] at h⟩
          · refine ⟨fun h => by simp at h, fun err herr hor => ?_⟩
            refine ⟨top, rest, hpost, rfl, ?_⟩
            simp only [hpost]
            exact fun hh => List.cons_ne_self top rest hh.symm
      · exact ⟨fun h => by simp [appendFinish] at h,
          fun err h hor => by simp [appendFinish] at h⟩
    -- dropScopes
    · exact ⟨fun h => by simp [appendFinish] at h,
        fun err h hor => by simp [appendFinish] at h⟩
    -- all other node kinds
    · exact ⟨fun h => by simp [appendFinish] at h,
        fun err h hor => by simp [appendFinish] at h⟩

/-- C8 witness: popping symbol 0 at node 3 of `gA` over a postcondition whose
front symbol is 1 yields `IncorrectPoppedSymbol` with the front already
removed. -/
theorem append_pop_errors_not_atomic_witness :
    ∃ top rest,
      (⟨0, 0, [], [⟨1, none⟩], ⟨[], some 1⟩, ⟨[], some 1⟩, 0⟩ :
          PartialPath).symbol_stack_postcondition = top :: rest ∧
        (PartialPath.append gA ⟨0, 0, [], [⟨1, none⟩], ⟨[], some 1⟩, ⟨[], some 1⟩, 0⟩
            ⟨0, 3, 0⟩).1 =
          { (⟨0, 0, [], [⟨1, none⟩], ⟨[], some 1⟩, ⟨[], some 1⟩, 0⟩ : PartialPath) with
              symbol_stack_postcondition := rest } ∧
        (PartialPath.append gA ⟨0, 0, [], [⟨1, none⟩], ⟨[], some 1⟩, ⟨[], some 1⟩, 0⟩
            ⟨0, 3, 0⟩).1.symbol_stack_postcondition ≠
          (⟨0, 0, [], [⟨1, none⟩], ⟨[], some 1⟩, ⟨[], some 1⟩, 0⟩ :
            PartialPath).symbol_stack_postcondition :=
  (append_pop_errors_not_atomic gA
      ⟨0, 0, [], [⟨1, none⟩], ⟨[], some 1⟩, ⟨[], some 1⟩, 0⟩ ⟨0, 3, 0⟩).2
    .incorrectPoppedSymbol (by decide) (Or.inl rfl)

/-- C9: `PartialPath::equals` and `PartialPath::cmp` ignore `edge_count`: two
partial paths with the same start node, the same end node, and pairwise equal
stack pre- and postconditions are `equals` and compare `Equal`, whatever
their edge counts. -/
theorem equals_cmp_ignore_edge_count (g : StackGraph) (p q : PartialPath)
    (h1 : p.start_node = q.start_node) (h2 : p.end_node = q.end_node)
    (h3 : PartialSymbolStack.equals p.symbol_stack_precondition
      q.symbol_stack_precondition = true)
    (h4 : PartialSymbolStack.equals p.symbol_stack_postcondition
      q.symbol_stack_postcondition = true)
    (h5 : PartialScopeStack.equals p.scope_stack_precondition
      q.scope_stack_precondition = true)
    (h6 : PartialScopeStack.equals p.scope_stack_postcondition
      q.scope_stack_postcondition = true) :
    PartialPath.equals p q = true ∧ PartialPath.cmp g p q = .eq := by
  have e3 := symStack_equals_eq h3
  have e4 := symStack_equals_eq h4
  have e5 := scopeStack_equals_eq h5
  have e6 := scopeStack_equals_eq h6
  constructor
  · simp [PartialPath.equals, h1, h2, e3, e4, e5, e6, symStack_equals_self,
      scopeStack_equals_self]
  · simp [PartialPath.cmp, h1, h2, e3, e4, e5, e6, cmpNat_self, symStack_cmp_self,
      scopeStack_cmp_self, ordering_eq_then]

/-- C9 witness: two paths differing only in edge count (0 versus 5) are
`equals` and compare `Equal`. -/
theorem equals_cmp_ignore_edge_count_witness :
    PartialPath.equals ⟨0, 0, [⟨2, none⟩], [], ⟨[], some 1⟩, ⟨[], some 1⟩, 0⟩
        ⟨0, 0, [⟨2, none⟩], [], ⟨[], some 1⟩, ⟨[], some 1⟩, 5⟩ = true ∧
      PartialPath.cmp gA ⟨0, 0, [⟨2, none⟩], [], ⟨[], some 1⟩, ⟨[], some 1⟩, 0⟩
        ⟨0, 0, [⟨2, none⟩], [], ⟨[], some 1⟩, ⟨[], some 1⟩, 5⟩ = .eq :=
  equals_cmp_ignore_edge_count gA
    ⟨0, 0, [⟨2, none⟩], [], ⟨[], some 1⟩, ⟨[], some 1⟩, 0⟩
    ⟨0, 0, [⟨2, none⟩], [], ⟨[], some 1⟩, ⟨[], some 1⟩, 5⟩
    rfl rfl (by decide) (by decide) (by decide) (by decide)

/-- C2 (amended): every partial path passed to the visitor by
`find_all_partial_paths_in_file` satisfies the pooled variable invariant:
every scope stack variable appearing in either postcondition also appears
somewhere in the preconditions (in an attached scope list of the symbol-stack
precondition or as the trailing variable of the scope-stack precondition) —
but not necessarily in the precondition of the same stack. -/
theorem enumerated_paths_variables_bound (g : StackGraph) (file fuel : Nat)
    (p : PartialPath) (hp : p ∈ find_all_partial_paths_in_file g file fuel) :
    variablesBound p := by
  simp only [find_all_partial_paths_in_file] at hp
  refine findAllLoop_variablesBound g file fuel _ [] [] ?_ (by simp) p hp
  intro q hq
  rcases List.mem_cons.mp hq with rfl | hq'
  · exact from_node_variablesBound g g.rootNode
  · obtain ⟨n, _, rfl⟩ := List.mem_map.mp hq'
    exact from_node_variablesBound g n

/-- C2 witness: the root seed path of the enumeration of file 0 of `gEnum` is
among the visited paths and satisfies the invariant. -/
theorem enumerated_paths_variables_bound_witness :
    (⟨0, 0, [], [], ⟨[], some 1⟩, ⟨[], some 1⟩, 0⟩ : PartialPath)
        ∈ find_all_partial_paths_in_file gEnum 0 10 ∧
      variablesBound ⟨0, 0, [], [], ⟨[], some 1⟩, ⟨[], some 1⟩, 0⟩ :=
  ⟨by decide, enumerated_paths_variables_bound gEnum 0 10 _ (by decide)⟩

/-- C2 counterexample: enumerating file 0 of `gEnum` passes to the visitor
the extension of the exported-scope seed along the edge to the scoped-push
node; that path carries variable 1 in an attached scope list of its
symbol-stack postcondition while its symbol-stack precondition contains no
variable at all, refuting the claimed per-stack form of the invariant. -/
theorem enumerated_path_violates_per_stack_invariant :
    (⟨1, 2, [], [⟨0, some ⟨[1], some 1⟩⟩], ⟨[], some 1⟩, ⟨[], some 1⟩, 1⟩ :
        PartialPath) ∈ find_all_partial_paths_in_file gEnum 0 10 ∧
      1 ∈ symbolStackVariables
          (⟨1, 2, [], [⟨0, some ⟨[1], some 1⟩⟩], ⟨[], some 1⟩, ⟨[], some 1⟩, 1⟩ :
            PartialPath).symbol_stack_postcondition ∧
      1 ∉ symbolStackVariables
          (⟨1, 2, [], [⟨0, some ⟨[1], some 1⟩⟩], ⟨[], some 1⟩, ⟨[], some 1⟩, 1⟩ :
            PartialPath).symbol_stack_precondition := by
  refine ⟨by decide, by decide, by decide⟩
